import Mathlib

/-!
# Verification of the `django_test` static inspection pipeline

Shallow embedding, in Lean 4, of the pure logic of the `django_test`
repository (project scanner, endpoint parser, URL resolver, spec builder).

Filesystem state is modelled explicitly:
* a project tree is a list of entries `(relative path components, isDir)`,
  listed in traversal order (mirroring `Path.iterdir` / `Path.rglob` order);
* the URL-resolver filesystem maps relative file-path strings to the outcome
  of `ast.parse` on that file (`Except Unit PyModule`, `.error` = SyntaxError).

Python `ast` nodes relevant to the parsers are embedded as inductives.
Python dicts that are only written and read by key are embedded as
association lists with prepend-on-write (first match on lookup = last write).
Python truthiness of `Optional[str]` values (`None` and `""` falsy) is
embedded explicitly where the source relies on it.
-/

namespace DjangoTest

/-- A filesystem path, as its list of components (mirrors `PurePath.parts`
for paths relative to the directory being scanned). -/
abbrev FsPath := List String

/-!
### String primitives

Python string operations are embedded as structurally recursive functions
over the character data (`String.data`), with Python's semantics: comparison
by code points, `split` on a one-character separator, substring membership,
prefix/suffix tests, ASCII case mapping.
-/

/-- Python string `<`: lexicographic by code point. -/
def charListLt : List Char → List Char → Bool
  | [], [] => false
  | [], _ :: _ => true
  | _ :: _, [] => false
  | a :: as, b :: bs => a < b || (a = b && charListLt as bs)

def strLt (a b : String) : Bool := charListLt a.data b.data

/-- Python string `<=`. -/
def strLe (a b : String) : Bool := a = b || strLt a b

/-- Python `s.split(sep)` for a one-character separator. -/
def splitOnCharAux (c : Char) : List Char → List Char → List (List Char)
  | [], acc => [acc.reverse]
  | x :: xs, acc =>
      if x = c then acc.reverse :: splitOnCharAux c xs []
      else splitOnCharAux c xs (x :: acc)

def strSplitOnChar (c : Char) (s : String) : List String :=
  (splitOnCharAux c s.data []).map String.mk

/-- Python `sub in s` (substring containment). -/
def charListContains (needle : List Char) : List Char → Bool
  | [] => needle.isPrefixOf []
  | x :: xs => needle.isPrefixOf (x :: xs) || charListContains needle xs

def strContains (s sub : String) : Bool := charListContains sub.data s.data

/-- Python `c in s` for a single character. -/
def strContainsChar (s : String) (c : Char) : Bool := s.data.contains c

/-- Python `s.startswith(pre)`. -/
def strStartsWith (s pre : String) : Bool := pre.data.isPrefixOf s.data

/-- Python `s.endswith(suf)`. -/
def strEndsWith (s suf : String) : Bool := suf.data.isSuffixOf s.data

/-- Python `s.lower()` (ASCII case mapping). -/
def strToLower (s : String) : String := ⟨s.data.map Char.toLower⟩

/-- Python `s.upper()` (ASCII case mapping). -/
def strToUpper (s : String) : String := ⟨s.data.map Char.toUpper⟩

/-- Lexicographic comparison of paths by components, each component compared
by the string order (mirrors Python `sorted` on `Path` values, which compares
the tuples of parts). -/
def pathLe : FsPath → FsPath → Bool
  | [], _ => true
  | _ :: _, [] => false
  | a :: as, b :: bs => if a = b then pathLe as bs else strLt a b

/-- The `Prop`-valued order used for sortedness statements. -/
def PathLE (a b : FsPath) : Prop := pathLe a b = true

instance : DecidableRel PathLE := fun a b => by unfold PathLE; infer_instance

/-- `sorted(set(l))` on Python `Path` values: de-duplicate, then sort. -/
def sortedSet (l : List FsPath) : List FsPath :=
  List.insertionSort PathLE l.dedup

/-! ## Project scanner (`scanner.py`) -/

/-- A project tree: entries `(relative path components, isDir)` in traversal
order. `Path.rglob` / `Path.iterdir` / `Path.glob` enumerate in this order. -/
structure ProjectFS where
  entries : List (FsPath × Bool)
deriving Repr

/-- `Path.exists` relative to the project root. -/
def ProjectFS.pathExists (fs : ProjectFS) (p : FsPath) : Bool :=
  fs.entries.any (fun e => e.1 = p)

/-- The last path component (`Path.name`); `""` for the root. -/
def pathName (p : FsPath) : String := p.getLastD ""

/-- `str(path)` for a relative path: components joined by `/`. -/
def pathToStr (p : FsPath) : String := String.intercalate "/" p

/-- `PurePath.with_suffix("")` on a file name: drop the part after the last
dot, if any (`"settings.py"` ↦ `"settings"`). -/
def dropSuffix (name : String) : String :=
  let parts := strSplitOnChar '.' name
  if parts.length ≤ 1 then name
  else String.intercalate "." parts.dropLast

/-- One component of a glob pattern matched against one path component:
the patterns used by the scanner are all literals except a final `*.py`
(fnmatch `*` also matches leading dots/underscores under `pathlib.glob`). -/
def globCompMatch (pat comp : String) : Bool :=
  if pat = "*.py" then strEndsWith comp ".py" else pat = comp

/-- Glob pattern (already split on `/`) against a relative path. -/
def globMatch : List String → FsPath → Bool
  | [], [] => true
  | [], _ :: _ => false
  | _ :: _, [] => false
  | pat :: pats, comp :: comps => globCompMatch pat comp && globMatch pats comps

/-- `app_path.glob(pattern)`: entries under the app directory (files or
directories) matching the pattern, in traversal order. `appFs` is the list
of paths relative to the app directory. -/
def globApp (appFs : List FsPath) (pattern : String) : List FsPath :=
  appFs.filter (globMatch (strSplitOnChar '/' pattern))

/-- Scanner path-convention constants (mirrors the constants block). -/
def SKIP_DIR_PREFIXES : List String := [".", "__", "venv"]

def VIEW_PATHS : List String := ["views", "presentation/views"]
def SERIALIZER_PATHS : List String := ["serializers", "presentation/serializers"]
def SERVICE_PATHS : List String := ["services", "application/services"]
def USECASE_PATHS : List String := ["usecases", "application/usecases"]
def ENTITY_PATHS : List String := ["domain/entities"]
def ORM_MODEL_PATHS_PRIMARY : List String := ["adapters/orm/models"]
def ORM_MODEL_PATHS_FALLBACK : List String := ["models"]

def DJANGO_APP_MARKERS : List String :=
  ["apps.py", "models.py", "presentation", "application"]

/-- `_collect_files`: for each name glob `{name}.py` and `{name}/*.py`,
then `sorted(set(results))`, then drop `__init__.py` entries. -/
def collectFiles (appFs : List FsPath) (names : List String) : List FsPath :=
  let results := names.foldl
    (fun acc name => acc ++ globApp appFs (name ++ ".py")
                         ++ globApp appFs (name ++ "/*.py")) []
  let files := sortedSet results
  files.filter (fun p => pathName p ≠ "__init__.py")

/-- `_collect_orm_models`: primary `adapters/orm/models` globs then fallback
`models` globs, `sorted(set(results))` — note: no `__init__.py` filter. -/
def collectOrmModels (appFs : List FsPath) : List FsPath :=
  let results₁ := ORM_MODEL_PATHS_PRIMARY.foldl
    (fun acc base => acc ++ globApp appFs (base ++ ".py")
                         ++ globApp appFs (base ++ "/*.py")) []
  let results := ORM_MODEL_PATHS_FALLBACK.foldl
    (fun acc base => acc ++ globApp appFs (base ++ ".py")
                         ++ globApp appFs (base ++ "/*.py")) results₁
  sortedSet results

/-- One discovered app (final revision of the data model, per the scanner's
construction site: six per-layer file lists). -/
structure AppMeta where
  name : String
  path : String
  views : List FsPath
  serializers : List FsPath
  services : List FsPath
  usecases : List FsPath
  entities : List FsPath
  orm_models : List FsPath
deriving Repr, DecidableEq

structure ScanResult where
  project_root : String
  settings_module : String
  apps : List AppMeta
deriving Repr, DecidableEq

/-- The two scanner failure modes (`RuntimeError("Not a Django project
(manage.py not found)")` and `RuntimeError("settings.py not found")`),
named as in the specification's error taxonomy. -/
inductive ScanError where
  | projectNotFound
  | settingsNotFound
deriving Repr, DecidableEq

/-- The paths of the entries lying strictly under the directory `dirName`
(an immediate child of the root), relative to that directory, in traversal
order: the view of the filesystem that `_scan_app` works with. -/
def ProjectFS.under (fs : ProjectFS) (dirName : String) : List FsPath :=
  fs.entries.filterMap (fun e =>
    match e.1 with
    | a :: rest => if a = dirName ∧ rest ≠ [] then some rest else none
    | [] => none)

/-- `_looks_like_django_app`. -/
def looksLikeDjangoApp (fs : ProjectFS) (dirName : String) : Bool :=
  DJANGO_APP_MARKERS.any (fun marker => fs.pathExists [dirName, marker])

/-- `_scan_app`. -/
def scanApp (dirName : String) (appFs : List FsPath) : AppMeta :=
  { name := dirName
    path := dirName
    views := collectFiles appFs VIEW_PATHS
    serializers := collectFiles appFs SERIALIZER_PATHS
    services := collectFiles appFs SERVICE_PATHS
    usecases := collectFiles appFs USECASE_PATHS
    entities := collectFiles appFs ENTITY_PATHS
    orm_models := collectOrmModels appFs }

/-- `_scan_apps`: immediate subdirectories of the root, in traversal order,
skipping names with a skip prefix, keeping those that look like apps. -/
def scanApps (fs : ProjectFS) : List AppMeta :=
  (fs.entries.filterMap (fun e =>
    match e.1, e.2 with
    | [name], true => some name
    | _, _ => none)).filterMap (fun name =>
      if SKIP_DIR_PREFIXES.any (fun pre => strStartsWith name pre) then none
      else if looksLikeDjangoApp fs name then some (scanApp name (fs.under name))
      else none)

/-- `_detect_settings_module`: first `rglob("settings.py")` hit whose path
string does not contain `"site-packages"`; error if none. The substring
test is applied to the path relative to the project root (the source
applies it to the absolute path; the root's own prefix is not modelled). -/
def detectSettingsModule (fs : ProjectFS) : Except ScanError String :=
  match fs.entries.find? (fun e =>
      pathName e.1 = "settings.py" && !strContains (pathToStr e.1) "site-packages") with
  | some e =>
      .ok (String.intercalate "." (e.1.dropLast ++ [dropSuffix (pathName e.1)]))
  | none => .error .settingsNotFound

/-- `scan_project`: assert `manage.py` exists, then
`settings or _detect_settings_module(root)` (Python truthiness: an empty
string argument is falsy and still triggers the search), then scan apps. -/
def scanProject (projectRoot : String) (fs : ProjectFS)
    (settings : Option String) : Except ScanError ScanResult := do
  if !fs.pathExists ["manage.py"] then throw .projectNotFound
  let settingsModule ←
    match settings with
    | some s => if s = "" then detectSettingsModule fs else pure s
    | none => detectSettingsModule fs
  pure { project_root := projectRoot
         settings_module := settingsModule
         apps := scanApps fs }

/-! ## Python AST fragments used by the parsers -/

/-- The `ast.expr` shapes the parsers inspect. `constantStr` is an
`ast.Constant` holding a string; `constantOther` any other constant;
`other` any expression shape none of the parsers look into. -/
inductive PyExpr where
  | name (id : String)
  | attribute (value : PyExpr) (attr : String)
  | call (func : PyExpr) (args : List PyExpr)
  | constantStr (value : String)
  | constantOther
  | listExpr (elts : List PyExpr)
  | other

/-- The `ast.stmt` shapes the parsers inspect at module or class level. -/
inductive PyStmt where
  | assign (targets : List PyExpr) (value : PyExpr)
  | classDef (name : String) (bases : List PyExpr) (body : List PyStmt)
  | funcDef (name : String) (decorators : List PyExpr) (body : List PyStmt)
  | other

/-! ## Endpoint parser (`parser.py`) -/

structure EndpointMeta where
  app : String
  view_name : String
  file : String
  view_type : String
  http_methods : List String
  serializer : Option String := none
  url_hint : Option String := none
deriving Repr, DecidableEq

/-- The `Prop`-valued string order used for sortedness of method lists. -/
def StrLE (a b : String) : Prop := strLe a b = true

instance : DecidableRel StrLE := fun a b => by unfold StrLE; infer_instance

/-- `sorted(set(l))` on Python strings. -/
def sortedStrSet (l : List String) : List String :=
  List.insertionSort StrLE l.dedup

/-- `_get_base_names`. -/
def getBaseNames (bases : List PyExpr) : List String :=
  bases.foldl (fun acc b =>
    match b with
    | .name i => acc ++ [i]
    | .attribute _ attr => acc ++ [attr]
    | _ => acc) []

def HTTP_VERB_NAMES : List String := ["get", "post", "put", "patch", "delete"]

/-- The collecting loop of `_extract_http_methods`: for each class-body
method, lower-case its name; if it is one of the five HTTP verbs, append
the upper-cased form. -/
def httpMethodStep (acc : List String) (item : PyStmt) : List String :=
  match item with
  | .funcDef n _ _ =>
      let name := strToLower n
      if name ∈ HTTP_VERB_NAMES then acc ++ [strToUpper name] else acc
  | _ => acc

/-- `_extract_http_methods`: lower-cased method names among the five HTTP
verbs, upper-cased, `sorted(set(...))`. -/
def extractHttpMethods (body : List PyStmt) : List String :=
  let methods := body.foldl httpMethodStep []
  sortedStrSet methods

def VIEWSET_ACTION_MAP : List (String × String) :=
  [("list", "GET"), ("retrieve", "GET"), ("create", "POST"),
   ("update", "PUT"), ("partial_update", "PATCH"), ("destroy", "DELETE")]

/-- `_viewset_methods`. -/
def viewsetMethods (body : List PyStmt) : List String :=
  let methods := body.foldl (fun acc item =>
    match item with
    | .funcDef n _ _ =>
        match VIEWSET_ACTION_MAP.lookup n with
        | some verb => acc ++ [verb]
        | none => acc
    | _ => acc) []
  sortedStrSet methods

/-- `_extract_serializer`: first class-body assignment to a target named
`serializer_class` whose value is a simple name. -/
def extractSerializer (body : List PyStmt) : Option String :=
  body.findSome? (fun item =>
    match item with
    | .assign targets value =>
        targets.findSome? (fun t =>
          match t, value with
          | .name "serializer_class", .name v => some v
          | _, _ => none)
    | _ => none)

/-- `_parse_class_view`. -/
def parseClassView (app file name : String) (bases : List PyExpr)
    (body : List PyStmt) : Option EndpointMeta :=
  let baseNames := getBaseNames bases
  if baseNames.any (fun b => strEndsWith b "APIView") then
    some { app := app, view_name := name, file := file, view_type := "APIView",
           http_methods := extractHttpMethods body,
           serializer := extractSerializer body }
  else if baseNames.any (fun b => strEndsWith b "ViewSet") then
    some { app := app, view_name := name, file := file, view_type := "ViewSet",
           http_methods := viewsetMethods body,
           serializer := extractSerializer body }
  else none

/-- The decorator-collecting loop of `_parse_function_view`: a bare name
contributes its identifier, a call whose function part is a name
contributes that identifier, anything else contributes nothing. -/
def decoratorStep (acc : List String) (d : PyExpr) : List String :=
  match d with
  | .name i => acc ++ [i]
  | .call (.name i) _ => acc ++ [i]
  | _ => acc

/-- `_parse_function_view`: decorator names are bare names or the name of a
called decorator; a decorator literally named `api_view` yields a
function-view endpoint with the fixed method list `["GET", "POST"]`. -/
def parseFunctionView (app file name : String)
    (decoratorList : List PyExpr) : Option EndpointMeta :=
  let decorators := decoratorList.foldl decoratorStep []
  if "api_view" ∈ decorators then
    some { app := app, view_name := name, file := file,
           view_type := "FunctionView", http_methods := ["GET", "POST"] }
  else none

/-- `_parse_view_file`: top-level statements of a parsed view file, in
declaration order. -/
def parseViewFile (app file : String) : List PyStmt → List EndpointMeta
  | [] => []
  | node :: rest =>
    let tail := parseViewFile app file rest
    match node with
    | .classDef n bases body =>
        match parseClassView app file n bases body with
        | some meta => meta :: tail
        | none => tail
    | .funcDef n decorators _ =>
        match parseFunctionView app file n decorators with
        | some meta => meta :: tail
        | none => tail
    | _ => tail

/-! ## URL resolver (`parser_urls.py`) -/

/-- The filesystem as the URL resolver sees it: relative file-path strings
mapped to the outcome of `ast.parse` on that file's text
(`.error ()` = the file exists but raises `SyntaxError`). -/
structure UrlFS where
  files : List (String × Except Unit (List PyStmt))

def UrlFS.lookup (fs : UrlFS) (p : String) : Option (Except Unit (List PyStmt)) :=
  fs.files.lookup p

/-- Python dict write `m[k] = v` (lookup returns the most recent write). -/
def dictInsert (m : List (String × String)) (k v : String) :
    List (String × String) := (k, v) :: m

/-- Python dict read `m.get(k)`. -/
def dictGet (m : List (String × String)) (k : String) : Option String :=
  m.lookup k

/-- Python truthiness of an `Optional[str]`: `None` and `""` are falsy. -/
def optTruthy : Option String → Bool
  | some s => s ≠ ""
  | none => false

/-- `_resolve_urls_py`: dotted module to a path relative to the project
root, kept only if that file exists. -/
def resolveUrlsPy (fs : UrlFS) (module : String) : Option String :=
  let path := String.intercalate "/" (strSplitOnChar '.' module) ++ ".py"
  if (fs.lookup path).isSome then some path else none

/-- `_normalize_url`: add a leading `/` if missing, then a trailing `/` if
missing (never strips repeated slashes). `startswith`/`endswith` on the
one-character affix `"/"` are head/last tests on the character data. -/
def normalizeUrl (url : String) : String :=
  let u := if url.data.head? = some '/' then url else "/" ++ url
  if u.data.getLast? = some '/' then u else u ++ "/"

/-- `_parse_path_call`: returns `(url, view, include_module)`. -/
def parsePathCall : List PyExpr → String × Option String × Option String
  | a0 :: target :: _ =>
    match a0 with
    | .constantStr url =>
        let inc : Option String :=
          match target with
          | .call (.name f) targs =>
              if f = "include" then
                match targs with
                | .constantStr m :: _ => some m
                | _ => none
              else none
          | _ => none
        match inc with
        | some m => (url, none, some m)
        | none =>
          match target with
          | .call (.attribute (.name v) _) _ => (url, some v, none)
          | .name v => (url, some v, none)
          | _ => (url, none, none)
    | _ => ("", none, none)
  | _ => ("", none, none)

mutual

/-- `_parse_urls_file`: module-level assignments to a variable literally
named `urlpatterns`. `fuel` bounds the include-recursion depth (the Python
code recurses unboundedly and would hit the interpreter recursion limit on
an include cycle); every recursive call consumes one unit. -/
def parseUrlsFile : Nat → UrlFS → List PyStmt → String →
    List (String × String) → List (String × String)
  | 0, _, _, _, urlMap => urlMap
  | f + 1, fs, stmts, pre, urlMap =>
    stmts.foldl (fun m node =>
      match node with
      | .assign targets value =>
          targets.foldl (fun m t =>
            match t with
            | .name i =>
                if i = "urlpatterns" then parseUrlpatternsList f fs value pre m
                else m
            | _ => m) m
      | _ => m) urlMap

/-- `_parse_urlpatterns_list`: entries of a literal list that are calls to
`path`/`re_path`; the include branch silently skips a file whose parse
raises `SyntaxError`; a direct view records the normalized
`prefix + url`; the prefix passed into recursion is the raw concatenation
`prefix + url`, not normalized. -/
def parseUrlpatternsList : Nat → UrlFS → PyExpr → String →
    List (String × String) → List (String × String)
  | 0, _, _, _, urlMap => urlMap
  | f + 1, fs, node, pre, urlMap =>
    match node with
    | .listExpr elts =>
      elts.foldl (fun m item =>
        match item with
        | .call (.name fname) args =>
          if fname = "path" ∨ fname = "re_path" then
            match parsePathCall args with
            | (url, view, includeModule) =>
              if optTruthy includeModule then
                match resolveUrlsPy fs (includeModule.getD "") with
                | some includePath =>
                    match fs.lookup includePath with
                    | some (.ok subTree) =>
                        parseUrlsFile f fs subTree (pre ++ url) m
                    | some (.error _) => m
                    | none => m
                | none => m
              else if optTruthy view then
                dictInsert m (view.getD "") (normalizeUrl (pre ++ url))
              else m
          else m
        | _ => m) urlMap
    | _ => urlMap

end

/-- `_collect_all_urls`: only the fixed entry file `config/urls.py` is read;
absent ⇒ empty map; a `SyntaxError` there propagates (`.error`). -/
def collectAllUrls (fuel : Nat) (fs : UrlFS) :
    Except Unit (List (String × String)) :=
  match fs.lookup "config/urls.py" with
  | none => .ok []
  | some (.error e) => .error e
  | some (.ok tree) => .ok (parseUrlsFile fuel fs tree "" [])

/-- `attach_urls`. -/
def attachUrls (fuel : Nat) (fs : UrlFS) (endpoints : List EndpointMeta) :
    Except Unit (List EndpointMeta) := do
  let urlMap ← collectAllUrls fuel fs
  pure (endpoints.map (fun ep => { ep with url_hint := dictGet urlMap ep.view_name }))

/-! ## Spec builder (`spec_builder.py`) -/

structure PathParam where
  name : String
  type : String
deriving Repr, DecidableEq

structure SuccessCase where
  expected_status : Nat
  assertions : List String
deriving Repr, DecidableEq

/-- One entry of the `"failure"` list; `caseName` embeds the dict key
`"case"` (a reserved word in Lean). -/
structure FailureCase where
  caseName : String
  input : List (String × String)
  expected_status : Nat
  assertions : List String
deriving Repr, DecidableEq

/-- The `test_cases` dict: a `"success"` entry always, a `"failure"` entry
only for body-carrying methods. -/
structure TestCases where
  success : SuccessCase
  failure : Option (List FailureCase) := none
deriving Repr, DecidableEq

structure SpecMetadata where
  has_body : Bool
  is_list_endpoint : Bool
  is_detail_endpoint : Bool
deriving Repr, DecidableEq

structure SpecEndpoint where
  app : String
  view : String
  method : String
  url : Option String
  path_params : List PathParam
  serializer : Option String
  requires_auth : Bool
  test_cases : TestCases
  metadata : SpecMetadata
deriving Repr, DecidableEq

structure AppLayers where
  entities : List String
  orm_models : List String
  usecases : List String
  services : List String
deriving Repr, DecidableEq

structure SpecApp where
  name : String
  path : String
  layers : AppLayers
deriving Repr, DecidableEq

structure SpecProject where
  name : String
  framework : String
  settings_module : String
  root_path : String
deriving Repr, DecidableEq

structure Conventions where
  success_default_status : Nat
  invalid_payload_status : Nat
  auth_header : String
deriving Repr, DecidableEq

structure SpecDoc where
  spec_version : String
  project : SpecProject
  apps : List SpecApp
  endpoints : List SpecEndpoint
  conventions : Conventions
deriving Repr, DecidableEq

def BODY_METHODS : List String := ["POST", "PUT", "PATCH"]

/-- `_default_test_cases` (the endpoint argument is unused by the source). -/
def defaultTestCases (_ep : EndpointMeta) (method : String) : TestCases :=
  let cases : TestCases :=
    { success := { expected_status := 200,
                   assertions := ["status_code == expected_status",
                                  "response is valid JSON"] } }
  if method ∈ BODY_METHODS then
    { cases with failure :=
        (some [{ caseName := "empty_payload", input := [], expected_status := 400,
                 assertions := ["status_code == expected_status"] },
               { caseName := "wrong_type",
                 input := [("__example_field__", "invalid_type")],
                 expected_status := 400,
                 assertions := ["status_code == expected_status"] }]) }
  else cases

/-- `_extract_path_params`: angle-bracket converter segments of the URL, in
left-to-right order; `<type:name>` splits on the first colon, `<name>`
defaults the type to `"str"`. -/
def extractPathParams (url : String) : List PathParam :=
  if strContainsChar url '<' ∧ strContainsChar url '>' then
    let parts := (strSplitOnChar '<' url).drop 1
    parts.foldl (fun params p =>
      if strContainsChar p '>' then
        let content := (strSplitOnChar '>' p).headD ""
        let tn : String × String :=
          if strContainsChar content ':' then
            match strSplitOnChar ':' content with
            | t :: rest => (t, String.intercalate ":" rest)
            | [] => ("str", content)
          else ("str", content)
        params ++ [{ name := tn.2, type := tn.1 }]
      else params) []
  else []

/-- `_endpoint_to_spec` (`build_spec` applies it only to endpoints with a
truthy `url_hint`, so the `None` guards of the source are embedded as
`getD ""`). -/
def endpointToSpec (ep : EndpointMeta) : SpecEndpoint :=
  let method := ep.http_methods.headD "GET"
  { app := ep.app
    view := ep.view_name
    method := method
    url := ep.url_hint
    path_params := extractPathParams (ep.url_hint.getD "")
    serializer := ep.serializer
    requires_auth := true
    test_cases := defaultTestCases ep method
    metadata :=
      { has_body := BODY_METHODS.contains method
        is_list_endpoint := strContains (strToLower ep.view_name) "list"
        is_detail_endpoint := strContainsChar (ep.url_hint.getD "") '<' } }

/-- `_app_to_spec`. -/
def appToSpec (app : AppMeta) : SpecApp :=
  { name := app.name
    path := app.path
    layers :=
      { entities := app.entities.map pathToStr
        orm_models := app.orm_models.map pathToStr
        usecases := app.usecases.map pathToStr
        services := app.services.map pathToStr } }

/-- `build_spec`: endpoints are filtered by Python truthiness of
`url_hint` (`if ep.url_hint`), so `None` and `""` are both dropped. -/
def buildSpec (scan : ScanResult) (endpoints : List EndpointMeta) : SpecDoc :=
  { spec_version := "1.0"
    project :=
      { name := (strSplitOnChar '/' scan.project_root).getLastD ""
        framework := "Django REST Framework"
        settings_module := scan.settings_module
        root_path := scan.project_root }
    apps := scan.apps.map appToSpec
    endpoints := (endpoints.filter (fun ep => optTruthy ep.url_hint)).map endpointToSpec
    conventions :=
      { success_default_status := 200
        invalid_payload_status := 400
        auth_header := "Authorization: Bearer <token>" } }

/-! ## Concrete fixtures

Small concrete filesystems, syntax trees and endpoint records used to
evaluate the embedded pipeline at specific inputs. -/

/-- A project root with only `manage.py` (no settings file anywhere). -/
def fsManageOnly : ProjectFS := ⟨[(["manage.py"], false)]⟩

/-- An entirely empty project root. -/
def fsEmpty : ProjectFS := ⟨[]⟩

/-- A project with one app `shop` whose clean-architecture ORM-model
directory contains an `__init__.py` (plus a views directory carrying its
own `__init__.py`, to contrast the two collectors). -/
def fsOrmInit : ProjectFS := ⟨[
  (["manage.py"], false),
  (["shop"], true),
  (["shop", "apps.py"], false),
  (["shop", "adapters"], true),
  (["shop", "adapters", "orm"], true),
  (["shop", "adapters", "orm", "models"], true),
  (["shop", "adapters", "orm", "models", "__init__.py"], false),
  (["shop", "adapters", "orm", "models", "user.py"], false),
  (["shop", "views"], true),
  (["shop", "views", "__init__.py"], false),
  (["shop", "views", "b.py"], false),
  (["shop", "views", "a.py"], false)
]⟩

/-- `config/urls.py` containing
`urlpatterns = [path("api/", include("sub.urls"))]` and `sub/urls.py`
containing
`urlpatterns = [path("events/<uuid:event_id>/", EventView.as_view())]`. -/
def fsTwoLevel : UrlFS := ⟨[
  ("config/urls.py", .ok [.assign [.name "urlpatterns"]
     (.listExpr [.call (.name "path") [.constantStr "api/",
        .call (.name "include") [.constantStr "sub.urls"]]])]),
  ("sub/urls.py", .ok [.assign [.name "urlpatterns"]
     (.listExpr [.call (.name "path") [.constantStr "events/<uuid:event_id>/",
        .call (.attribute (.name "EventView") "as_view") []]])])
]⟩

/-- A `config/urls.py` whose text does not parse (SyntaxError). -/
def fsTopBroken : UrlFS := ⟨[("config/urls.py", .error ())]⟩

/-- A `config/urls.py` whose first entry includes a file with a syntax
error and whose second entry is a direct function view. -/
def fsIncludeBroken : UrlFS := ⟨[
  ("config/urls.py", .ok [.assign [.name "urlpatterns"]
     (.listExpr [.call (.name "path") [.constantStr "a/",
                   .call (.name "include") [.constantStr "bad.urls"]],
                 .call (.name "path") [.constantStr "b/", .name "b_view"]])]),
  ("bad/urls.py", .error ())
]⟩

/-- `urlpatterns = [path("//x", V.as_view())]`: the fragment already starts
with two slashes. -/
def fsDoubleSlash : UrlFS := ⟨[
  ("config/urls.py", .ok [.assign [.name "urlpatterns"]
     (.listExpr [.call (.name "path") [.constantStr "//x",
        .call (.attribute (.name "V") "as_view") []]])])
]⟩

/-- Outer fragment `"api"` lacking its trailing slash composed with inner
fragment `"x/"`: exposes that include prefixes concatenate raw. -/
def fsRawPrefix : UrlFS := ⟨[
  ("config/urls.py", .ok [.assign [.name "urlpatterns"]
     (.listExpr [.call (.name "path") [.constantStr "api",
        .call (.name "include") [.constantStr "sub.urls"]]])]),
  ("sub/urls.py", .ok [.assign [.name "urlpatterns"]
     (.listExpr [.call (.name "path") [.constantStr "x/",
        .call (.attribute (.name "V") "as_view") []]])])
]⟩

/-- A trivial scan result (no apps). -/
def scanTrivial : ScanResult :=
  { project_root := "/r/proj", settings_module := "config.settings", apps := [] }

/-- An endpoint whose `url_hint` is the non-null but empty string. -/
def epEmptyUrl : EndpointMeta :=
  { app := "a", view_name := "V", file := "f", view_type := "APIView",
    http_methods := ["GET"], url_hint := some "" }

/-- A resolved POST endpoint. -/
def epPost : EndpointMeta :=
  { app := "a", view_name := "CreateView", file := "f", view_type := "APIView",
    http_methods := ["POST"], url_hint := some "/items/" }

/-- A resolved GET endpoint. -/
def epGet : EndpointMeta :=
  { app := "a", view_name := "ItemView", file := "f", view_type := "APIView",
    http_methods := ["GET"], url_hint := some "/items/" }

/-- A view-file module body: one function decorated with
`@api_view(["DELETE"])` (arguments present and naming a non-default
method set). -/
def bodyApiView : List PyStmt :=
  [.funcDef "my_view" [.call (.name "api_view") [.listExpr [.constantStr "DELETE"]]] []]

/-- A class body defining methods `GET` and `Get` (upper/mixed case). -/
def bodyUpperGet : List PyStmt :=
  [.funcDef "GET" [] [], .funcDef "Get" [] []]

/-- Statement vocabulary: a layer file list that is sorted, duplicate-free
and free of `__init__.py` entries. -/
def LayerListClean (l : List FsPath) : Prop :=
  l.Sorted PathLE ∧ l.Nodup ∧ ∀ p ∈ l, pathName p ≠ "__init__.py"

/-- Statement vocabulary: sorted and duplicate-free. -/
def SortedNodup (l : List FsPath) : Prop :=
  l.Sorted PathLE ∧ l.Nodup

/-- Statement vocabulary: every URL value recorded in a URL map starts and
ends with a slash. -/
def UrlMapSlashed (m : List (String × String)) : Prop :=
  ∀ kv ∈ m, kv.2.data.head? = some '/' ∧ kv.2.data.getLast? = some '/'

/-- Statement vocabulary: every entry of `m` was already in `m₀` or carries
a value produced by `normalizeUrl` (i.e. was normalized when recorded). -/
def NewEntriesNormalized (m₀ m : List (String × String)) : Prop :=
  ∀ kv ∈ m, kv ∈ m₀ ∨ ∃ s, kv.2 = normalizeUrl s

end DjangoTest

namespace DjangoTest

/-! ## General lemmas about the embedded operations -/

theorem charListLt_irrefl (l : List Char) : charListLt l l = false := by
  induction l with
  | nil => rfl
  | cons a as ih => simp [charListLt, ih, lt_irrefl]

theorem charListLt_trans : ∀ {l m n : List Char}, charListLt l m = true →
    charListLt m n = true → charListLt l n = true := by
  intro l
  induction l with
  | nil =>
    intro m n hlm hmn
    cases m with
    | nil => simp [charListLt] at hlm
    | cons b bs =>
      cases n with
      | nil => simp [charListLt] at hmn
      | cons c cs => rfl
  | cons a as ih =>
    intro m n hlm hmn
    cases m with
    | nil => simp [charListLt] at hlm
    | cons b bs =>
      cases n with
      | nil => simp [charListLt] at hmn
      | cons c cs =>
        simp only [charListLt, Bool.or_eq_true, Bool.and_eq_true,
          decide_eq_true_eq] at hlm hmn ⊢
        rcases hlm with hab | ⟨hab, hrest₁⟩
        · rcases hmn with hbc | ⟨hbc, _⟩
          · exact Or.inl (lt_trans hab hbc)
          · exact Or.inl (hbc ▸ hab)
        · rcases hmn with hbc | ⟨hbc, hrest₂⟩
          · exact Or.inl (hab ▸ hbc)
          · exact Or.inr ⟨hab.trans hbc, ih hrest₁ hrest₂⟩

theorem charListLt_total : ∀ l m : List Char,
    l = m ∨ charListLt l m = true ∨ charListLt m l = true := by
  intro l
  induction l with
  | nil =>
    intro m
    cases m with
    | nil => exact Or.inl rfl
    | cons b bs => exact Or.inr (Or.inl rfl)
  | cons a as ih =>
    intro m
    cases m with
    | nil => exact Or.inr (Or.inr rfl)
    | cons b bs =>
      rcases lt_trichotomy a b with hab | hab | hab
      · refine Or.inr (Or.inl ?_)
        simp [charListLt, hab]
      · subst hab
        rcases ih bs with h | h | h
        · exact Or.inl (h ▸ rfl)
        · refine Or.inr (Or.inl ?_)
          simp [charListLt, h]
        · refine Or.inr (Or.inr ?_)
          simp [charListLt, h]
      · refine Or.inr (Or.inr ?_)
        simp [charListLt, hab]

theorem strLt_irrefl (a : String) : strLt a a = false := charListLt_irrefl a.data

theorem strLt_trans {a b c : String} (h₁ : strLt a b = true)
    (h₂ : strLt b c = true) : strLt a c = true := charListLt_trans h₁ h₂

theorem strLt_total {a b : String} (h : a ≠ b) :
    strLt a b = true ∨ strLt b a = true := by
  rcases charListLt_total a.data b.data with h' | h' | h'
  · exact absurd (String.ext h') h
  · exact Or.inl h'
  · exact Or.inr h'

theorem strLt_ne {a b : String} (h : strLt a b = true) : a ≠ b := by
  intro he
  subst he
  rw [strLt_irrefl] at h
  exact Bool.false_ne_true h

theorem pathLe_total (a b : FsPath) : pathLe a b = true ∨ pathLe b a = true := by
  induction a generalizing b with
  | nil => left; rfl
  | cons x xs ih =>
    cases b with
    | nil => right; rfl
    | cons y ys =>
      simp only [pathLe]
      by_cases hxy : x = y
      · subst hxy
        rw [if_pos rfl, if_pos rfl]
        exact ih ys
      · rw [if_neg hxy, if_neg (Ne.symm hxy)]
        exact strLt_total hxy

theorem pathLe_trans {a b c : FsPath} (hab : pathLe a b = true)
    (hbc : pathLe b c = true) : pathLe a c = true := by
  induction a generalizing b c with
  | nil => rfl
  | cons x xs ih =>
    cases b with
    | nil => exact absurd hab (by simp [pathLe])
    | cons y ys =>
      cases c with
      | nil => exact absurd hbc (by simp [pathLe])
      | cons z zs =>
        simp only [pathLe] at hab hbc ⊢
        by_cases hxy : x = y
        · subst hxy
          rw [if_pos rfl] at hab
          by_cases hxz : x = z
          · subst hxz
            rw [if_pos rfl] at hbc ⊢
            exact ih hab hbc
          · rw [if_neg hxz] at hbc ⊢
            exact hbc
        · rw [if_neg hxy] at hab
          by_cases hyz : y = z
          · subst hyz
            rw [if_neg hxy]
            exact hab
          · rw [if_neg hyz] at hbc
            have hxz : strLt x z = true := strLt_trans hab hbc
            rw [if_neg (strLt_ne hxz)]
            exact hxz

theorem sortedSet_sorted (l : List FsPath) : (sortedSet l).Sorted PathLE := by
  haveI : IsTotal FsPath PathLE := ⟨fun a b => pathLe_total a b⟩
  haveI : IsTrans FsPath PathLE := ⟨fun _ _ _ hab hbc => pathLe_trans hab hbc⟩
  exact List.sorted_insertionSort PathLE l.dedup

theorem sortedSet_nodup (l : List FsPath) : (sortedSet l).Nodup :=
  ((List.perm_insertionSort PathLE l.dedup).nodup_iff).mpr (List.nodup_dedup l)

theorem collectFiles_clean (appFs : List FsPath) (names : List String) :
    LayerListClean (collectFiles appFs names) := by
  unfold collectFiles LayerListClean
  refine ⟨?_, ?_, ?_⟩
  · exact (sortedSet_sorted _).filter _
  · exact (sortedSet_nodup _).filter _
  · intro p hp
    simp only [List.mem_filter, decide_not, Bool.not_eq_true', decide_eq_false_iff_not] at hp
    exact hp.2

theorem collectOrmModels_sortedNodup (appFs : List FsPath) :
    SortedNodup (collectOrmModels appFs) := by
  unfold collectOrmModels SortedNodup
  exact ⟨sortedSet_sorted _, sortedSet_nodup _⟩

/-! ## C1 -/

/-- **C1** (corrected claim refuted as stated): scanning the concrete
project `fsOrmInit` yields an app whose `orm_models` list contains a file
named `__init__.py` — `_collect_orm_models` applies no `__init__` filter,
so "no per-layer file list contains an `__init__`-named file" is false for
the `orm_models` layer. -/
theorem scanProject_ormModels_init_counterexample :
    ∃ r, scanProject "/r/proj" fsOrmInit (some "config.settings") = Except.ok r ∧
      ∃ app ∈ r.apps, ∃ p ∈ app.orm_models, pathName p = "__init__.py" := by
  refine ⟨_, rfl, ?_⟩
  decide

/-- **C1** (amended): for every scanned app directory, every per-layer file
list of the resulting `AppMeta` is lexicographically sorted and
duplicate-free; the `views`, `serializers`, `services`, `usecases` and
`entities` lists moreover never contain an `__init__`-named file, while the
`orm_models` list (whose collector lacks the `__init__` filter) is only
guaranteed sorted and duplicate-free. -/
theorem scanApp_layer_lists_amended (dirName : String) (appFs : List FsPath) :
    LayerListClean (scanApp dirName appFs).views ∧
    LayerListClean (scanApp dirName appFs).serializers ∧
    LayerListClean (scanApp dirName appFs).services ∧
    LayerListClean (scanApp dirName appFs).usecases ∧
    LayerListClean (scanApp dirName appFs).entities ∧
    SortedNodup (scanApp dirName appFs).orm_models :=
  ⟨collectFiles_clean _ _, collectFiles_clean _ _, collectFiles_clean _ _,
   collectFiles_clean _ _, collectFiles_clean _ _, collectOrmModels_sortedNodup _⟩

/-! ## C5 -/

/-- **C5** (confirmed): for every project root whose filesystem lacks a
top-level `manage.py`, `scan_project` fails with the project-not-found
error for every settings argument; being an `Except.error`, no partial
`ScanResult` (hence no `AppMeta` and no settings detection result) is
produced. -/
theorem scanProject_missing_manage_fails (root : String) (fs : ProjectFS)
    (settings : Option String) (h : fs.pathExists ["manage.py"] = false) :
    scanProject root fs settings = .error .projectNotFound := by
  unfold scanProject
  simp only [h, Bool.not_false, if_true]
  rfl

/-- Witness for C5: the empty project root. -/
theorem scanProject_missing_manage_fails_witness :
    scanProject "/r/proj" fsEmpty none = .error .projectNotFound :=
  scanProject_missing_manage_fails "/r/proj" fsEmpty none (by decide)

/-! ## C9 -/

/-- **C9** (corrected claim refuted as stated): the empty string is a
non-null settings argument, yet — because the source computes
`settings or _detect_settings_module(root)` with Python truthiness — the
settings search still runs and the missing-settings failure occurs on a
root that has `manage.py` but no settings file. -/
theorem scanProject_empty_settings_counterexample :
    (some "" ≠ (none : Option String)) ∧
    fsManageOnly.pathExists ["manage.py"] = true ∧
    scanProject "/r/proj" fsManageOnly (some "") = .error .settingsNotFound :=
  ⟨by simp, by decide, rfl⟩

/-- **C9** (amended): for every project root containing `manage.py`, calling
`scan_project` with a non-null **and non-empty** settings argument performs
no settings search: the scan succeeds, its `settings_module` is the argument
verbatim, and the missing-settings failure cannot occur even if no settings
file exists anywhere under the root. -/
theorem scanProject_explicit_settings_amended (root : String) (fs : ProjectFS)
    (s : String) (hs : s ≠ "") (hm : fs.pathExists ["manage.py"] = true) :
    scanProject root fs (some s) =
      .ok { project_root := root, settings_module := s, apps := scanApps fs } := by
  unfold scanProject
  simp only [hm, Bool.not_true, if_neg, hs, if_false, Bool.false_eq_true,
    not_false_eq_true]
  simp [hs]
  rfl

/-- Witness for C9 (amended): `fsManageOnly` has no settings file anywhere,
yet an explicit non-empty settings argument is returned verbatim. -/
theorem scanProject_explicit_settings_amended_witness :
    scanProject "/r" fsManageOnly (some "config.settings") =
      .ok { project_root := "/r", settings_module := "config.settings",
            apps := scanApps fsManageOnly } :=
  scanProject_explicit_settings_amended "/r" fsManageOnly "config.settings"
    (by decide) (by decide)

/-! ## C2 -/

/-- **C2** (confirmed): with the outer entry `path("api/", include("sub.urls"))`
and the included `urlpatterns = [path("events/<uuid:event_id>/",
EventView.as_view())]`, URL resolution maps the view name `"EventView"` to
exactly `/api/events/<uuid:event_id>/`, and path-parameter extraction on that
URL returns exactly `[{name := "event_id", type := "uuid"}]`. -/
theorem twoLevelInclude_resolution :
    collectAllUrls 10 fsTwoLevel =
      .ok [("EventView", "/api/events/<uuid:event_id>/")] ∧
    dictGet [("EventView", "/api/events/<uuid:event_id>/")] "EventView" =
      some "/api/events/<uuid:event_id>/" ∧
    extractPathParams "/api/events/<uuid:event_id>/" =
      [{ name := "event_id", type := "uuid" }] :=
  ⟨rfl, rfl, rfl⟩

/-! ## C3 -/

/-- **C3** (confirmed): a syntax error in the top-level URL-configuration
entry file propagates out of `_collect_all_urls` and aborts resolution,
whereas a syntax error in a file reached through `include(...)` only skips
that branch: in `fsIncludeBroken` the broken `bad/urls.py` branch is dropped
silently and the remaining entry still resolves to `/b/`. -/
theorem urlResolution_syntaxError_asymmetry :
    (∀ (fuel : Nat) (fs : UrlFS),
        fs.lookup "config/urls.py" = some (.error ()) →
        collectAllUrls fuel fs = .error ()) ∧
    collectAllUrls 10 fsIncludeBroken = .ok [("b_view", "/b/")] := by
  constructor
  · intro fuel fs h
    unfold collectAllUrls
    rw [h]
  · rfl

/-- Witness for C3: the concrete broken top-level file aborts resolution. -/
theorem urlResolution_syntaxError_asymmetry_witness :
    collectAllUrls 10 fsTopBroken = .error () :=
  urlResolution_syntaxError_asymmetry.1 10 fsTopBroken rfl

/-! ## C4 -/

theorem nen_refl (m : List (String × String)) : NewEntriesNormalized m m :=
  fun _ h => Or.inl h

theorem nen_trans {m₀ m₁ m₂ : List (String × String)}
    (h₁ : NewEntriesNormalized m₀ m₁) (h₂ : NewEntriesNormalized m₁ m₂) :
    NewEntriesNormalized m₀ m₂ := by
  intro kv hkv
  rcases h₂ kv hkv with h | h
  · exact h₁ kv h
  · exact Or.inr h

theorem nen_foldl {α : Type} (g : List (String × String) → α → List (String × String))
    (hg : ∀ m a, NewEntriesNormalized m (g m a)) :
    ∀ (l : List α) (m), NewEntriesNormalized m (l.foldl g m) := by
  intro l
  induction l with
  | nil => intro m; exact nen_refl m
  | cons a l ih => intro m; exact nen_trans (hg m a) (ih (g m a))

theorem nen_dictInsert (m : List (String × String)) (k s : String) :
    NewEntriesNormalized m (dictInsert m k (normalizeUrl s)) := by
  intro kv hkv
  rcases List.mem_cons.mp hkv with h | h
  · exact Or.inr ⟨s, by rw [h]⟩
  · exact Or.inl h

/-- Every entry added by the URL parsers carries a `normalizeUrl` value. -/
theorem parseUrls_newEntriesNormalized : ∀ fuel : Nat,
    (∀ fs stmts pre m, NewEntriesNormalized m (parseUrlsFile fuel fs stmts pre m)) ∧
    (∀ fs node pre m, NewEntriesNormalized m (parseUrlpatternsList fuel fs node pre m)) := by
  intro fuel
  induction fuel with
  | zero =>
    exact ⟨fun _ _ _ m => nen_refl m, fun _ _ _ m => nen_refl m⟩
  | succ f ih =>
    refine ⟨?_, ?_⟩
    · intro fs stmts pre m
      apply nen_foldl
      intro m' node
      cases node
      case assign targets value =>
        apply nen_foldl
        intro m'' t
        cases t
        case name i =>
          dsimp only
          by_cases hi : i = "urlpatterns"
          · rw [if_pos hi]
            exact ih.2 fs value pre m''
          · rw [if_neg hi]
            exact nen_refl m''
        all_goals exact nen_refl m''
      all_goals exact nen_refl m'
    · intro fs node pre m
      cases node
      case listExpr elts =>
        apply nen_foldl
        intro m' item
        cases item
        case call fn args =>
          cases fn
          case name fname =>
            dsimp only
            by_cases hf : fname = "path" ∨ fname = "re_path"
            · rw [if_pos hf]
              rcases hp : parsePathCall args with ⟨url, view, includeModule⟩
              dsimp only
              cases hinc : optTruthy includeModule
              · rw [if_neg Bool.false_ne_true]
                cases hview : optTruthy view
                · rw [if_neg Bool.false_ne_true]
                  exact nen_refl m'
                · rw [if_pos rfl]
                  exact nen_dictInsert m' (view.getD "") (pre ++ url)
              · rw [if_pos rfl]
                split
                · split
                  · exact ih.1 fs _ (pre ++ url) m'
                  · exact nen_refl m'
                  · exact nen_refl m'
                · exact nen_refl m'
            · rw [if_neg hf]
              exact nen_refl m'
          all_goals exact nen_refl m'
        all_goals exact nen_refl m'
      all_goals exact nen_refl m

theorem normalizeUrl_slashed (url : String) :
    (normalizeUrl url).data.head? = some '/' ∧
    (normalizeUrl url).data.getLast? = some '/' := by
  unfold normalizeUrl
  by_cases h1 : url.data.head? = some '/'
  · rw [if_pos h1]
    by_cases h2 : url.data.getLast? = some '/'
    · rw [if_pos h2]
      exact ⟨h1, h2⟩
    · rw [if_neg h2]
      constructor
      · rw [String.data_append]
        cases hd : url.data with
        | nil => rw [hd] at h1; exact absurd h1 (by simp)
        | cons c t =>
          rw [hd] at h1
          simp only [List.head?_cons, Option.some.injEq] at h1
          simp [h1]
      · rw [String.data_append]
        exact List.getLast?_concat _
  · rw [if_neg h1]
    have hu : ("/" ++ url).data = '/' :: url.data := by
      rw [String.data_append]
      rfl
    by_cases h2 : ("/" ++ url).data.getLast? = some '/'
    · rw [if_pos h2]
      exact ⟨by rw [hu]; rfl, h2⟩
    · rw [if_neg h2]
      constructor
      · rw [String.data_append, hu]
        rfl
      · rw [String.data_append]
        exact List.getLast?_concat _

/-- **C4** (corrected claim refuted as stated): `_normalize_url` never strips
slashes, so a fragment that already begins with `//` is recorded with two
leading slashes — "exactly one leading `/`" is false for the recorded URL
`//x/` produced from `path("//x", V.as_view())`. -/
theorem collectAllUrls_doubleSlash_counterexample :
    collectAllUrls 10 fsDoubleSlash = .ok [("V", "//x/")] ∧
    ("//x/" : String).data.head? = some '/' ∧
    ("//x/" : String).data.tail.head? = some '/' :=
  ⟨rfl, rfl, rfl⟩

/-- **C4** (amended): every URL recorded in the resolution map has **at
least** one leading and one trailing slash (normalization adds a missing
slash on either side but never strips repeated ones), normalization being
applied only when a mapping is recorded; prefixes passed into include
recursion are concatenated raw, as witnessed by the outer fragment `"api"`
(no trailing slash) and inner fragment `"x/"` composing to `/apix/`. -/
theorem collectAllUrls_normalization_amended :
    (∀ (fuel : Nat) (fs : UrlFS) (m : List (String × String)),
        collectAllUrls fuel fs = .ok m →
        ∀ kv ∈ m, kv.2.data.head? = some '/' ∧ kv.2.data.getLast? = some '/') ∧
    collectAllUrls 10 fsRawPrefix = .ok [("V", "/apix/")] := by
  constructor
  · intro fuel fs m h kv hkv
    unfold collectAllUrls at h
    cases hl : fs.lookup "config/urls.py" with
    | none =>
      rw [hl] at h
      obtain rfl : ([] : List (String × String)) = m := by
        simpa using h
      exact absurd hkv (List.not_mem_nil kv)
    | some content =>
      rw [hl] at h
      cases content with
      | error e => exact absurd h (by simp)
      | ok tree =>
        obtain rfl : parseUrlsFile fuel fs tree "" [] = m := by
          simpa using h
        rcases (parseUrls_newEntriesNormalized fuel).1 fs tree "" [] kv hkv with
          habs | ⟨s, hs⟩
        · exact absurd habs (List.not_mem_nil kv)
        · rw [hs]
          exact normalizeUrl_slashed s
  · rfl

/-- Witness for C4 (amended): the recorded URL `/apix/` of `fsRawPrefix`
carries the guaranteed slashes. -/
theorem collectAllUrls_normalization_amended_witness :
    ("/apix/" : String).data.head? = some '/' ∧
    ("/apix/" : String).data.getLast? = some '/' :=
  collectAllUrls_normalization_amended.1 10 fsRawPrefix [("V", "/apix/")] rfl
    ("V", "/apix/") (List.mem_singleton.mpr rfl)

/-! ## C6 -/

/-- **C6** (corrected claim refuted as stated): an endpoint whose `url_hint`
is the non-null empty string is dropped from the spec document's endpoint
list (the source filters by Python truthiness, `if ep.url_hint`), so "every
endpoint whose url_hint is non-null appears in it" is false. -/
theorem buildSpec_emptyUrl_counterexample :
    epEmptyUrl.url_hint ≠ none ∧
    (buildSpec scanTrivial [epEmptyUrl]).endpoints = [] :=
  ⟨by decide, rfl⟩

/-- **C6** (amended): for every input, every spec-document endpoint record
carries a non-null, non-empty URL (so endpoints with a null url_hint are
absent), and every endpoint whose `url_hint` is non-null **and non-empty**
(Python-truthy) appears in the document; endpoints with a null url_hint
never do. Unresolved endpoints in the raw list are silently omitted. -/
theorem buildSpec_url_filter_amended (scan : ScanResult) (eps : List EndpointMeta) :
    (∀ r ∈ (buildSpec scan eps).endpoints, ∃ s, r.url = some s ∧ s ≠ "") ∧
    (∀ ep ∈ eps, optTruthy ep.url_hint = true →
        endpointToSpec ep ∈ (buildSpec scan eps).endpoints) ∧
    (∀ ep ∈ eps, ep.url_hint = none →
        endpointToSpec ep ∉ (buildSpec scan eps).endpoints) := by
  have hmain : ∀ r ∈ (buildSpec scan eps).endpoints, ∃ s, r.url = some s ∧ s ≠ "" := by
    intro r hr
    rcases List.mem_map.mp hr with ⟨ep, hep, rfl⟩
    have htr : optTruthy ep.url_hint = true := (List.mem_filter.mp hep).2
    cases hu : ep.url_hint with
    | none => rw [hu] at htr; exact absurd htr (by simp [optTruthy])
    | some s =>
      refine ⟨s, ?_, ?_⟩
      · show ep.url_hint = some s
        exact hu
      · rw [hu] at htr
        simpa [optTruthy] using htr
  refine ⟨hmain, ?_, ?_⟩
  · intro ep hep htr
    exact List.mem_map.mpr ⟨ep, List.mem_filter.mpr ⟨hep, htr⟩, rfl⟩
  · intro ep hep hnull hmem
    rcases hmain _ hmem with ⟨s, hs, _⟩
    have : ep.url_hint = some s := hs
    rw [hnull] at this
    exact Option.noConfusion this

/-- Witness for C6 (amended): a resolved GET endpoint appears in the spec
document. -/
theorem buildSpec_url_filter_amended_witness :
    endpointToSpec epGet ∈ (buildSpec scanTrivial [epGet]).endpoints :=
  (buildSpec_url_filter_amended scanTrivial [epGet]).2.1 epGet
    (List.mem_singleton.mpr rfl) (by decide)

/-! ## C7 -/

/-- **C7** (confirmed): every endpoint surviving into the spec document has
a "success" test case with expected status 200; if its primary method is not
one of POST/PUT/PATCH there is no failure entry, and if it is, the failure
entry holds exactly the two cases "empty_payload" (input `{}`, status 400)
and "wrong_type" (input `{"__example_field__": "invalid_type"}`,
status 400). -/
theorem specEndpoint_testCases (scan : ScanResult) (eps : List EndpointMeta) :
    ∀ r ∈ (buildSpec scan eps).endpoints,
      r.test_cases.success.expected_status = 200 ∧
      (r.method ∉ BODY_METHODS → r.test_cases.failure = none) ∧
      (r.method ∈ BODY_METHODS → r.test_cases.failure =
        some [{ caseName := "empty_payload", input := [], expected_status := 400,
                assertions := ["status_code == expected_status"] },
              { caseName := "wrong_type",
                input := [("__example_field__", "invalid_type")],
                expected_status := 400,
                assertions := ["status_code == expected_status"] }]) := by
  intro r hr
  rcases List.mem_map.mp hr with ⟨ep, _, rfl⟩
  by_cases hm : (ep.http_methods.head?.getD "GET") ∈ BODY_METHODS
  · refine ⟨?_, ?_, ?_⟩
    · simp [endpointToSpec, defaultTestCases, hm]
    · intro hnot
      exact absurd hm (by simpa [endpointToSpec] using hnot)
    · intro _
      simp [endpointToSpec, defaultTestCases, hm]
  · refine ⟨?_, ?_, ?_⟩
    · simp [endpointToSpec, defaultTestCases, hm]
    · intro _
      simp [endpointToSpec, defaultTestCases, hm]
    · intro hyes
      exact absurd (by simpa [endpointToSpec] using hyes) hm

/-- Witness for C7: the POST endpoint `epPost` gets exactly the two failure
cases. -/
theorem specEndpoint_testCases_witness :
    (endpointToSpec epPost).test_cases.failure =
      some [{ caseName := "empty_payload", input := [], expected_status := 400,
              assertions := ["status_code == expected_status"] },
            { caseName := "wrong_type",
              input := [("__example_field__", "invalid_type")],
              expected_status := 400,
              assertions := ["status_code == expected_status"] }] :=
  (specEndpoint_testCases scanTrivial [epPost] (endpointToSpec epPost)
    (by decide)).2.2 (by decide)

/-! ## C8 -/

theorem decoratorStep_mono : ∀ (l : List PyExpr) (acc : List String) (x : String),
    x ∈ acc → x ∈ l.foldl decoratorStep acc := by
  intro l
  induction l with
  | nil => intro acc x h; exact h
  | cons d l ih =>
    intro acc x h
    cases d
    case name i => exact ih _ x (List.mem_append_left _ h)
    case call fn args =>
      cases fn
      case name i => exact ih _ x (List.mem_append_left _ h)
      all_goals exact ih _ x h
    all_goals exact ih _ x h

theorem apiView_mem_decorators : ∀ (l : List PyExpr) (acc : List String),
    (∃ d ∈ l, d = PyExpr.name "api_view" ∨
        ∃ args, d = PyExpr.call (PyExpr.name "api_view") args) →
    "api_view" ∈ l.foldl decoratorStep acc := by
  intro l
  induction l with
  | nil =>
    rintro acc ⟨d, hd, -⟩
    exact absurd hd (List.not_mem_nil d)
  | cons d l ih =>
    rintro acc ⟨d', hd', hshape⟩
    rcases List.mem_cons.mp hd' with rfl | hmem
    · rcases hshape with rfl | ⟨args, rfl⟩
      · exact decoratorStep_mono l _ _
          (List.mem_append_right _ (List.mem_singleton.mpr rfl))
      · exact decoratorStep_mono l _ _
          (List.mem_append_right _ (List.mem_singleton.mpr rfl))
    · exact ih _ ⟨d', hmem, hshape⟩

theorem parseFunctionView_apiView (app file name : String) (decs : List PyExpr)
    (h : ∃ d ∈ decs, d = PyExpr.name "api_view" ∨
        ∃ args, d = PyExpr.call (PyExpr.name "api_view") args) :
    parseFunctionView app file name decs =
      some { app := app, view_name := name, file := file,
             view_type := "FunctionView", http_methods := ["GET", "POST"] } := by
  unfold parseFunctionView
  rw [if_pos (apiView_mem_decorators decs [] h)]

theorem parseViewFile_mono (app file : String) (node : PyStmt)
    (rest : List PyStmt) (ep : EndpointMeta)
    (h : ep ∈ parseViewFile app file rest) :
    ep ∈ parseViewFile app file (node :: rest) := by
  cases node
  case classDef n bases cbody =>
    show ep ∈ (match parseClassView app file n bases cbody with
      | some meta => meta :: parseViewFile app file rest
      | none => parseViewFile app file rest)
    cases parseClassView app file n bases cbody with
    | some meta => exact List.mem_cons_of_mem _ h
    | none => exact h
  case funcDef n decs fb =>
    show ep ∈ (match parseFunctionView app file n decs with
      | some meta => meta :: parseViewFile app file rest
      | none => parseViewFile app file rest)
    cases parseFunctionView app file n decs with
    | some meta => exact List.mem_cons_of_mem _ h
    | none => exact h
  all_goals exact h

/-- **C8** (confirmed): every top-level function definition carrying a
decorator literally named `api_view` — bare, or called with any arguments —
yields a function-view endpoint whose HTTP-method list is exactly
`["GET", "POST"]`. -/
theorem parseViewFile_apiView (app file : String) (body : List PyStmt)
    (name : String) (decs : List PyExpr) (fbody : List PyStmt)
    (hmem : PyStmt.funcDef name decs fbody ∈ body)
    (hdec : ∃ d ∈ decs, d = PyExpr.name "api_view" ∨
        ∃ args, d = PyExpr.call (PyExpr.name "api_view") args) :
    ∃ ep ∈ parseViewFile app file body,
      ep.view_name = name ∧ ep.view_type = "FunctionView" ∧
      ep.http_methods = ["GET", "POST"] := by
  induction body with
  | nil => exact absurd hmem (List.not_mem_nil _)
  | cons node rest ih =>
    rcases List.mem_cons.mp hmem with rfl | hmem'
    · refine ⟨{ app := app, view_name := name, file := file,
                view_type := "FunctionView", http_methods := ["GET", "POST"] },
              ?_, rfl, rfl, rfl⟩
      show _ ∈ parseViewFile app file (PyStmt.funcDef name decs fbody :: rest)
      have hp := parseFunctionView_apiView app file name decs hdec
      show _ ∈ (match parseFunctionView app file name decs with
        | some meta => meta :: parseViewFile app file rest
        | none => parseViewFile app file rest)
      rw [hp]
      exact List.mem_cons_self _ _
    · rcases ih hmem' with ⟨ep, hep, hprops⟩
      exact ⟨ep, parseViewFile_mono app file node rest ep hep, hprops⟩

/-- Witness for C8: `@api_view(["DELETE"])` — arguments present and naming a
different method — still yields `["GET", "POST"]`. -/
theorem parseViewFile_apiView_witness :
    ∃ ep ∈ parseViewFile "events" "views.py" bodyApiView,
      ep.view_name = "my_view" ∧ ep.view_type = "FunctionView" ∧
      ep.http_methods = ["GET", "POST"] :=
  parseViewFile_apiView "events" "views.py" bodyApiView "my_view"
    [.call (.name "api_view") [.listExpr [.constantStr "DELETE"]]] []
    (by unfold bodyApiView; exact List.mem_cons_self _ _)
    ⟨.call (.name "api_view") [.listExpr [.constantStr "DELETE"]],
     List.mem_cons_self _ _, Or.inr ⟨[.listExpr [.constantStr "DELETE"]], rfl⟩⟩

/-! ## C10 -/

theorem httpMethodStep_mono : ∀ (l : List PyStmt) (acc : List String) (x : String),
    x ∈ acc → x ∈ l.foldl httpMethodStep acc := by
  intro l
  induction l with
  | nil => intro acc x h; exact h
  | cons item l ih =>
    intro acc x h
    cases item
    case funcDef n decs fb =>
      show x ∈ List.foldl httpMethodStep
        (if strToLower n ∈ HTTP_VERB_NAMES then acc ++ [strToUpper (strToLower n)] else acc) l
      by_cases hv : strToLower n ∈ HTTP_VERB_NAMES
      · rw [if_pos hv]
        exact ih _ x (List.mem_append_left _ h)
      · rw [if_neg hv]
        exact ih _ x h
    all_goals exact ih _ x h

theorem verb_mem_httpMethodFold : ∀ (l : List PyStmt) (acc : List String)
    (n : String) (decs : List PyExpr) (fb : List PyStmt),
    PyStmt.funcDef n decs fb ∈ l → strToLower n ∈ HTTP_VERB_NAMES →
    strToUpper (strToLower n) ∈ l.foldl httpMethodStep acc := by
  intro l
  induction l with
  | nil =>
    intro acc n decs fb hmem _
    exact absurd hmem (List.not_mem_nil _)
  | cons item l ih =>
    intro acc n decs fb hmem hverb
    rcases List.mem_cons.mp hmem with rfl | hmem'
    · show strToUpper (strToLower n) ∈ List.foldl httpMethodStep
        (if strToLower n ∈ HTTP_VERB_NAMES then acc ++ [strToUpper (strToLower n)] else acc) l
      rw [if_pos hverb]
      exact httpMethodStep_mono l _ _
        (List.mem_append_right _ (List.mem_singleton.mpr rfl))
    · exact ih _ n decs fb hmem' hverb

theorem mem_sortedStrSet {l : List String} {x : String} (h : x ∈ l) :
    x ∈ sortedStrSet l := by
  unfold sortedStrSet
  rw [(List.perm_insertionSort StrLE l.dedup).mem_iff, List.mem_dedup]
  exact h

/-- **C10** (confirmed): HTTP-method extraction for APIView class bodies is
case-insensitive on method names — whenever a class method's lower-cased
name is one of get/post/put/patch/delete, the corresponding upper-cased
verb is in the extracted method list (so `GET` or `Get` count just as
`get` does). -/
theorem extractHttpMethods_caseInsensitive (body : List PyStmt) (n : String)
    (decs : List PyExpr) (fb : List PyStmt)
    (hmem : PyStmt.funcDef n decs fb ∈ body)
    (hverb : strToLower n ∈ HTTP_VERB_NAMES) :
    strToUpper (strToLower n) ∈ extractHttpMethods body := by
  unfold extractHttpMethods
  exact mem_sortedStrSet (verb_mem_httpMethodFold body [] n decs fb hmem hverb)

/-- Witness for C10: methods written `GET` and `Get` both produce the verb
`"GET"` in the extracted list. -/
theorem extractHttpMethods_caseInsensitive_witness :
    (strToLower "GET" ∈ HTTP_VERB_NAMES ∧
      strToUpper (strToLower "GET") ∈ extractHttpMethods bodyUpperGet) ∧
    (strToLower "Get" ∈ HTTP_VERB_NAMES ∧
      strToUpper (strToLower "Get") ∈ extractHttpMethods bodyUpperGet) :=
  ⟨⟨by decide,
    extractHttpMethods_caseInsensitive bodyUpperGet "GET" [] []
      (by unfold bodyUpperGet; exact List.mem_cons_self _ _) (by decide)⟩,
   ⟨by decide,
    extractHttpMethods_caseInsensitive bodyUpperGet "Get" [] []
      (by unfold bodyUpperGet; exact List.mem_cons_of_mem _ (List.mem_cons_self _ _))
      (by decide)⟩⟩

end DjangoTest
